import Mathlib

/-!
Verification development for the additive-normalization and routine-aggregation
core of the ai-food-scan mobile application.

The TypeScript sources embedded here:
  - apps/mobile/src/store/routineStore.ts (normalizeENumberToken, baseENumber,
    deriveENumbersFromRaw, uniq, safeStr, getRoutineItems, upsertRoutineItem)
  - apps/mobile/src/screens/InteractionCheckScreen.tsx (normE, expandE,
    extractENumbers, canRun, runCheck, summaryLine)
  - apps/mobile/src/screens/InsightsScreen.tsx (normENumber, baseENumber,
    uniq, extractRoutineENumbers)
  - the what-if screens (includedItems)

JavaScript strings are modeled as Lean String values; character-level
operations (toUpperCase, toLowerCase, trim, whitespace stripping, the regular
expressions used by the sources) are implemented over the underlying character
list.  toUpperCase / toLowerCase are modeled by their ASCII action, and the
whitespace class by the common ASCII whitespace characters; all inputs the
claims mention are ASCII.
-/

/-- ASCII decimal digit, as tested by the regex class backslash-d. -/
def isDigitA (c : Char) : Bool := 48 ≤ c.toNat && c.toNat ≤ 57

/-- ASCII upper-case letter, the regex class A to Z. -/
def isUpperAlphaA (c : Char) : Bool := 65 ≤ c.toNat && c.toNat ≤ 90

/-- ASCII whitespace, modeling the JavaScript regex class backslash-s
(space, tab, line feed, vertical tab, form feed, carriage return). -/
def isWsA (c : Char) : Bool :=
  c.toNat = 32 || c.toNat = 9 || c.toNat = 10 || c.toNat = 11 || c.toNat = 12 || c.toNat = 13

/-- ASCII action of String.prototype.toUpperCase on one character. -/
def upChar (c : Char) : Char :=
  if 97 ≤ c.toNat ∧ c.toNat ≤ 122 then Char.ofNat (c.toNat - 32) else c

/-- ASCII action of String.prototype.toLowerCase on one character. -/
def downChar (c : Char) : Char :=
  if 65 ≤ c.toNat ∧ c.toNat ≤ 90 then Char.ofNat (c.toNat + 32) else c

/-- Pack a character list back into a string. -/
def chStr (l : List Char) : String := String.mk l

/-- JavaScript String.prototype.trim modeled on the character list. -/
def trimChars (l : List Char) : List Char :=
  ((l.dropWhile isWsA).reverse.dropWhile isWsA).reverse

/-- String.prototype.trim. -/
def jsTrim (s : String) : String := chStr (trimChars s.data)

/-- String.prototype.toUpperCase (ASCII action). -/
def jsUpper (s : String) : String := chStr (s.data.map upChar)

/-- String.prototype.toLowerCase (ASCII action). -/
def jsLower (s : String) : String := chStr (s.data.map downChar)

/-- replace(backslash-s+, empty string) with the global flag: remove every
whitespace character. -/
def jsStripWs (s : String) : String := chStr (s.data.filter (fun c => !(isWsA c)))

/-- String concatenation (template literals in the sources). -/
def strCat (a b : String) : String := chStr (a.data ++ b.data)

/-- Prepend the letter E, as the sources do with template literals. -/
def eCat (s : String) : String := chStr ('E' :: s.data)

/-- First character is the letter E: models s.startsWith of the one-character
string E. -/
def headIsE (s : String) : Bool :=
  match s.data with
  | c :: _ => decide (c = 'E')
  | [] => false

/-- First character is an ASCII digit: models the test of s at index 0 being
between the characters 0 and 9. -/
def headDigit (s : String) : Bool :=
  match s.data with
  | c :: _ => isDigitA c
  | [] => false

/-- The regex of routineStore.normalizeENumberToken, anchored both ends:
3 or 4 digits followed by any number of upper-case letters. -/
def isDigits34Letters (s : String) : Bool :=
  let ds := s.data.takeWhile isDigitA
  let rest := s.data.dropWhile isDigitA
  decide (3 ≤ ds.length) && decide (ds.length ≤ 4) && rest.all isUpperAlphaA

/-- The regex of InsightsScreen.normENumber, anchored both ends:
3 or 4 digits followed by at most one upper-case letter. -/
def isDigits34Letter01 (s : String) : Bool :=
  let ds := s.data.takeWhile isDigitA
  let rest := s.data.dropWhile isDigitA
  decide (3 ≤ ds.length) && decide (ds.length ≤ 4) &&
    rest.all isUpperAlphaA && decide (rest.length ≤ 1)

/-- The cleaning step shared by routineStore.normalizeENumberToken and
InsightsScreen.normENumber: trim, then uppercase, then strip all whitespace. -/
def cleanToken (x : String) : String := jsStripWs (jsUpper (jsTrim x))

/-- routineStore.ts, normalizeENumberToken: returns the cleaned token as-is
when it starts with E, prepends E to a 3-or-4-digit shape, else null. -/
def normalizeENumberToken (x : String) : Option String :=
  let s := cleanToken x
  if s = "" then none
  else if headIsE s then some s
  else if isDigits34Letters s then some (eCat s)
  else none

/-- The regex E then 3-or-4 digits, unanchored at the right, returning the
matched prefix: used by both baseENumber implementations.  The digit run is
greedy and capped at four digits. -/
def eDigitsHead (s : String) : Option String :=
  match s.data with
  | 'E' :: rest =>
    let ds := (rest.takeWhile isDigitA).take 4
    if 3 ≤ ds.length then some (chStr ('E' :: ds)) else none
  | _ => none

namespace RoutineStore

/-- routineStore.ts, baseENumber: the matched E-digits prefix of the
uppercased input, or null when the shape does not match. -/
def baseENumber (en : String) : Option String := eDigitsHead (jsUpper en)

end RoutineStore

namespace Insights

/-- InsightsScreen.tsx, baseENumber: the matched E-digits prefix of the
uppercased input, falling back to the uppercased input itself. -/
def baseENumber (code : String) : String :=
  match eDigitsHead (jsUpper code) with
  | some b => b
  | none => jsUpper code

/-- InsightsScreen.tsx, normENumber: like the store normalizer, but the
digit shape allows at most one trailing letter. -/
def normENumber (x : String) : Option String :=
  let s := cleanToken x
  if s = "" then none
  else if headIsE s then some s
  else if isDigits34Letter01 s then some (eCat s)
  else none

end Insights

/-- The regex of InteractionCheckScreen.normE, anchored both ends: E, an
optional single separator (whitespace or hyphen), one or more digits, then an
optional run of upper-case letters.  Returns the digit and letter runs. -/
def parseESDL (l : List Char) : Option (List Char × List Char) :=
  match l with
  | 'E' :: rest =>
    let rest2 := match rest with
      | c :: t => if c = '-' ∨ isWsA c then t else c :: t
      | [] => []
    let ds := rest2.takeWhile isDigitA
    let ls := rest2.dropWhile isDigitA
    if ds ≠ [] ∧ ls.all isUpperAlphaA then some (ds, ls) else none
  | _ => none

/-- The regex used inside InteractionCheckScreen.expandE, anchored both ends:
E, one or more digits, then an optional run of upper-case letters. -/
def parseEDL (l : List Char) : Option (List Char × List Char) :=
  match l with
  | 'E' :: rest =>
    let ds := rest.takeWhile isDigitA
    let ls := rest.dropWhile isDigitA
    if ds ≠ [] ∧ ls.all isUpperAlphaA then some (ds, ls) else none
  | _ => none

namespace Check

/-- InteractionCheckScreen.tsx, normE: trim and uppercase (no whitespace
stripping); digit-initial tokens get E prepended wholesale; otherwise the
separator-tolerant regex is tried; otherwise any E-initial token passes
through unchanged, and everything else maps to the empty string. -/
def normE (x : String) : String :=
  let s := jsUpper (jsTrim x)
  if s = "" then ""
  else if headDigit s then eCat s
  else match parseESDL s.data with
    | some (ds, ls) => chStr ('E' :: (ds ++ ls))
    | none => if headIsE s then s else ""

end Check

/-- JavaScript Set.prototype.add on a list kept in insertion order. -/
def jsSetAdd (acc : List String) (s : String) : List String :=
  if s ∈ acc then acc else acc ++ [s]

/-- Array.from of a Set built from a list: first occurrences, in order. -/
def jsSetOfList (l : List String) : List String := l.foldl jsSetAdd []

/-- routineStore.ts, uniq: drop falsy (empty) strings, then deduplicate
keeping first occurrences. -/
def uniq (arr : List String) : List String :=
  jsSetOfList (arr.filter (fun s => s ≠ ""))

namespace Check

/-- InteractionCheckScreen.tsx, expandE: the normalized code plus, when the
code parses as E-digits-letters, its base form. -/
def expandE (e : String) : List String :=
  let n := normE e
  if n = "" then []
  else
    let out := jsSetAdd [] n
    match parseEDL n.data with
    | some (ds, _) => jsSetAdd out (chStr ('E' :: ds))
    | none => out

/-- The addToken closure of InteractionCheckScreen.extractENumbers. -/
def addToken (out : List String) (t : String) : List String :=
  let n := normE t
  if n = "" then out else (expandE n).foldl jsSetAdd out

end Check

/-- A product-like record as probed by InteractionCheckScreen.extractENumbers:
each field is an optional array of raw tokens (absent fields model object
shapes without that key, or with a non-array value there). -/
structure ExtractItem where
  additives : Option (List String) := none
  offAdditives : Option (List String) := none
  productAdditives : Option (List String) := none
  e_numbers : Option (List String) := none
  additives_e_numbers : Option (List String) := none
deriving DecidableEq

namespace Check

/-- The candidate token list of extractENumbers: the concatenation of every
present array, in the probe order of the source. -/
def candidates (it : ExtractItem) : List String :=
  it.additives.getD [] ++ it.offAdditives.getD [] ++ it.productAdditives.getD [] ++
    it.e_numbers.getD [] ++ it.additives_e_numbers.getD []

/-- InteractionCheckScreen.tsx, extractENumbers: fold every candidate token
of every item into one insertion-ordered set and render it as an array. -/
def extractENumbers (items : List ExtractItem) : List String :=
  items.foldl (fun out it => (candidates it).foldl addToken out) []

/-- InteractionCheckScreen.tsx, canRun: at least two unique additive codes. -/
def canRun (eNumbers : List String) : Bool := decide (2 ≤ eNumbers.length)

end Check

/-- A routine item as probed by InsightsScreen.extractRoutineENumbers: the
first present array among e_numbers, additives_raw and additives wins (an
empty array is truthy in JavaScript and also wins). -/
structure InsightsItem where
  e_numbers : Option (List String) := none
  additives_raw : Option (List String) := none
  additives : Option (List String) := none
deriving DecidableEq

/-- Lexicographic comparison of character lists by code point, the order the
default JavaScript Array.prototype.sort comparator induces on these ASCII
strings. -/
def strLeChars : List Char → List Char → Bool
  | [], _ => true
  | _ :: _, [] => false
  | a :: as, b :: bs => if a = b then strLeChars as bs else decide (a < b)

/-- Lexicographic comparison of strings by code point. -/
def strLe (a b : String) : Bool := strLeChars a.data b.data

/-- Array.prototype.sort with the default comparator, on ASCII strings. -/
def sortJS (l : List String) : List String :=
  List.insertionSort (fun a b => strLe a b = true) l

namespace Insights

/-- The field-probing step of extractRoutineENumbers. -/
def rawList (it : InsightsItem) : List String :=
  match it.e_numbers with
  | some l => l
  | none => match it.additives_raw with
    | some l => l
    | none => it.additives.getD []

/-- InsightsScreen.tsx, uniq: deduplicate keeping first occurrences. -/
def uniqIns (l : List String) : List String := jsSetOfList l

/-- InsightsScreen.tsx, extractRoutineENumbers: normalize every token of
every probed list, append the base form of each code when it differs, then
deduplicate and sort with the default lexicographic comparator. -/
def extractRoutineENumbers (items : List InsightsItem) : List String :=
  let out := items.foldl (fun acc it => acc ++ ((rawList it).filterMap normENumber)) []
  let expanded := out.foldl
    (fun acc code =>
      let b := baseENumber code
      if b ≠ "" ∧ b ≠ code then (acc ++ [code]) ++ [b] else acc ++ [code]) []
  sortJS (uniqIns expanded)

end Insights

/-- Consumption frequency category of routineStore.ts. -/
inductive Frequency where
  | Daily
  | Weekly
  | Rare
deriving DecidableEq

/-- The badge summary stored on a routine item (routineStore.ts).  The string
fields carry the literal JavaScript values (grade letter or em dash,
Yes / No / Unknown, Low / Medium / High). -/
structure Badges where
  eco : String
  vegan : String
  vegetarian : String
  allergensCount : Nat
  additivesCount : Nat
  additivesRisk : String
deriving DecidableEq

/-- A stored routine item (routineStore.ts).  enabled is optional because
items written by an older revision of the store may lack the flag; the
current upsert always writes a boolean. -/
structure RoutineItem where
  id : String
  barcode : String
  name : String
  brand : String
  image_url : Option String
  ingredients_text : Option String
  enabled : Option Bool
  additives_raw : List String
  e_numbers : List String
  allergens_raw : List String
  addedAtISO : String
  frequency : Frequency
  badges : Badges
deriving DecidableEq

/-- The badges part of an upsert payload: every field optional, mirroring the
JavaScript nullish-coalescing merge. -/
structure PartialBadges where
  eco : Option String := none
  vegan : Option String := none
  vegetarian : Option String := none
  allergensCount : Option Nat := none
  additivesCount : Option Nat := none
  additivesRisk : Option String := none
deriving DecidableEq

/-- The partial payload accepted by upsertRoutineItem: a field is none when
the JavaScript value is absent or fails the type test the source applies to
it (string test for id, name and brand; Array.isArray for the lists; typeof
boolean for enabled). -/
structure UpsertInput where
  id : Option String := none
  barcode : Option String := none
  name : Option String := none
  brand : Option String := none
  image_url : Option String := none
  ingredients_text : Option String := none
  enabled : Option Bool := none
  additives_raw : Option (List String) := none
  e_numbers : Option (List String) := none
  allergens_raw : Option (List String) := none
  frequency : Option Frequency := none
  badges : PartialBadges := {}
deriving DecidableEq

/-- routineStore.ts, safeStr: trim a string value, falling back when the
value is absent or trims to the empty string. -/
def safeStr (x : Option String) (fallback : String) : String :=
  match x with
  | some s => if jsTrim s = "" then fallback else jsTrim s
  | none => fallback

/-- The JavaScript test v strict-not-equal false, for an optional boolean:
true unless the stored value is literally false. -/
def jsNotFalse : Option Bool → Bool
  | some false => false
  | _ => true

/-- routineStore.ts, deriveENumbersFromRaw: normalize every raw token, keep
the base form of each valid code, deduplicate. -/
def deriveENumbersFromRaw (raw : List String) : List String :=
  uniq (raw.filterMap (fun x => (normalizeENumberToken x).bind RoutineStore.baseENumber))

/-- The barcode the upsert works with: the trimmed input barcode or empty. -/
def inputBarcode (input : UpsertInput) : String := safeStr input.barcode ""

/-- The id the upsert works with: the trimmed input id, defaulting to the
barcode when present, else to a generated identifier from the clock. -/
def inputId (nowMs : String) (input : UpsertInput) : String :=
  safeStr input.id
    (if inputBarcode input = "" then strCat "id_" nowMs else inputBarcode input)

/-- The findIndex predicate of upsertRoutineItem: match by barcode when the
incoming barcode is non-empty, else by id. -/
def matchPred (nowMs : String) (input : UpsertInput) (x : RoutineItem) : Bool :=
  if inputBarcode input = "" then decide (x.id = inputId nowMs input)
  else decide (x.barcode = inputBarcode input)

/-- Array.prototype.findIndex as an optional index. -/
def findMatchIdx {α : Type} (p : α → Bool) : List α → Option Nat
  | [] => none
  | x :: xs => if p x then some 0 else (findMatchIdx p xs).map (· + 1)

/-- The merged item built by upsertRoutineItem (routineStore.ts lines
102 to 160), given the optional previously stored item. -/
def nextItem (nowMs nowIso : String) (input : UpsertInput) (prev : Option RoutineItem) :
    RoutineItem :=
  let barcode := inputBarcode input
  let id := inputId nowMs input
  let additives_raw := match input.additives_raw with
    | some l => uniq (l.filterMap normalizeENumberToken)
    | none => (prev.map (fun p => p.additives_raw)).getD []
  let e_numbers := match input.e_numbers with
    | some l => uniq ((l.map (fun x => jsTrim (jsUpper x))).filter (fun s => s ≠ ""))
    | none =>
      if additives_raw.length ≠ 0 then deriveENumbersFromRaw additives_raw
      else (prev.map (fun p => p.e_numbers)).getD []
  let allergens_raw := match input.allergens_raw with
    | some l => uniq ((l.map (fun x => jsLower (jsTrim x))).filter (fun s => s ≠ ""))
    | none => (prev.map (fun p => p.allergens_raw)).getD []
  let badges : Badges := {
    eco := input.badges.eco.getD ((prev.map (fun p => p.badges.eco)).getD "—")
    vegan := input.badges.vegan.getD ((prev.map (fun p => p.badges.vegan)).getD "Unknown")
    vegetarian :=
      input.badges.vegetarian.getD ((prev.map (fun p => p.badges.vegetarian)).getD "Unknown")
    allergensCount :=
      input.badges.allergensCount.getD
        ((prev.map (fun p => p.badges.allergensCount)).getD allergens_raw.length)
    additivesCount :=
      input.badges.additivesCount.getD
        ((prev.map (fun p => p.badges.additivesCount)).getD e_numbers.length)
    additivesRisk :=
      input.badges.additivesRisk.getD ((prev.map (fun p => p.badges.additivesRisk)).getD "Low") }
  let enabled : Bool := match input.enabled with
    | some b => b
    | none => jsNotFalse (prev.bind (fun p => p.enabled))
  { id := id
    barcode := if barcode ≠ "" then barcode else (prev.map (fun p => p.barcode)).getD ""
    name := safeStr input.name ((prev.map (fun p => p.name)).getD "Unknown product")
    brand := safeStr input.brand ((prev.map (fun p => p.brand)).getD "—")
    image_url := input.image_url <|> prev.bind (fun p => p.image_url)
    ingredients_text := input.ingredients_text <|> prev.bind (fun p => p.ingredients_text)
    enabled := some enabled
    additives_raw := additives_raw
    e_numbers := e_numbers
    allergens_raw := allergens_raw
    addedAtISO := (prev.map (fun p => p.addedAtISO)).getD nowIso
    frequency := (input.frequency <|> prev.map (fun p => p.frequency)).getD Frequency.Daily
    badges := badges }

/-- routineStore.ts, upsertRoutineItem: replace the first item matching the
incoming identity in place, or insert the merged item at the front.  The two
clock readings of the source (Date.now for the generated id, the ISO
timestamp for addedAtISO) are explicit parameters. -/
def upsertRoutineItem (nowMs nowIso : String) (input : UpsertInput)
    (routine : List RoutineItem) : List RoutineItem :=
  match findMatchIdx (matchPred nowMs input) routine with
  | some i => routine.set i (nextItem nowMs nowIso input routine[i]?)
  | none => nextItem nowMs nowIso input none :: routine

/-- routineStore.ts, getRoutineItems: a fresh array of shallow copies with
enabled defaulted to true unless stored as literally false. -/
def getRoutineItems (routine : List RoutineItem) : List RoutineItem :=
  routine.map (fun x => { x with enabled := some (jsNotFalse x.enabled) })

/-- One upsert call with its clock readings. -/
structure UpsertOp where
  nowMs : String
  nowIso : String
  input : UpsertInput

/-- A finite sequence of upsert calls applied to the initially empty store. -/
def applyUpserts (ops : List UpsertOp) : List RoutineItem :=
  ops.foldl (fun st op => upsertRoutineItem op.nowMs op.nowIso op.input st) []

/-- No two items of the collection share a non-empty barcode. -/
def BarcodesOK (l : List RoutineItem) : Prop :=
  List.Pairwise (fun a b => a = "" ∨ a ≠ b) (l.map (fun x => x.barcode))

/-- The object shape getRoutineItems hands to extractENumbers: a stored
routine item carries none of the probed keys except e_numbers (its raw list
lives under the key additives_raw, which extractENumbers does not probe). -/
def itemToCheckInput (x : RoutineItem) : ExtractItem :=
  { e_numbers := some x.e_numbers }

/-- The parsed scoring response held by InteractionCheckScreen (the fields
the held state and the summary line read). -/
structure ApiResp where
  inputs : List String := []
  score : Option Nat := none
  grade : Option String := none
  matchesArr : List String := []
deriving DecidableEq

/-- The held orchestrator state of InteractionCheckScreen: the last response,
the error message, and the loading flag. -/
structure CheckState where
  resp : Option ApiResp := none
  err : String := ""
  loading : Bool := false
deriving DecidableEq

namespace Check

/-- The synchronous prefix of runCheck: when canRun is false it clears the
held report and the error and issues no request; otherwise it enters the
loading state and issues a request carrying the current additive set. -/
def issueRunCheck (eNumbers : List String) (st : CheckState) :
    CheckState × Option (List String) :=
  if canRun eNumbers = false then ({ st with resp := none, err := "" }, none)
  else ({ st with loading := true, err := "" }, some eNumbers)

/-- The continuation run when a response arrives: the response is stored
unconditionally (there is no staleness check in the source), and the
finally block clears the loading flag. -/
def completeOk (st : CheckState) (r : ApiResp) : CheckState :=
  { st with resp := some r, loading := false }

/-- The continuation run when a request fails: the error message is kept,
the held report cleared, the loading flag cleared. -/
def completeErr (st : CheckState) (msg : String) : CheckState :=
  { st with resp := none, err := msg, loading := false }

/-- Successful responses applied in arrival order. -/
def applyCompletions (st : CheckState) (rs : List ApiResp) : CheckState :=
  rs.foldl completeOk st

/-- The summary line of InteractionCheckScreen, in source branch order. -/
def summaryLine (loading : Bool) (err : String) (canRunB : Bool)
    (resp : Option ApiResp) : String :=
  if loading then "Checking your routine for known risky additive combinations…"
  else if err ≠ "" then "Could not run interaction check. Tap for details."
  else if canRunB = false then
    "Add at least 2 additives in your routine (from one or more products) to run the check."
  else match resp with
    | none => "Ready to check your routine."
    | some r =>
      if r.matchesArr.length = 0 then "No matches found in your current evidence dataset."
      else strCat (strCat "Found " (toString r.matchesArr.length))
        " interaction signal(s) in your evidence dataset."

end Check

/-- The what-if filter of the interaction-check screens: keep the items whose
id is not marked in the exclusion record.  The record of the source maps ids
to booleans; an absent key reads as false. -/
def includedItems (items : List RoutineItem) (excluded : String → Bool) :
    List RoutineItem :=
  items.filter (fun it => !(excluded it.id))

/-- The canonical additive-code shape the specification describes: upper-case
E, then 3 or 4 digits, then optionally trailing upper-case letters.  This is
a specification-side predicate used to state claims, not source code. -/
def isCanonicalECode (s : String) : Bool :=
  match s.data with
  | 'E' :: rest =>
    let ds := rest.takeWhile isDigitA
    let ls := rest.dropWhile isDigitA
    decide (3 ≤ ds.length) && decide (ds.length ≤ 4) && ls.all isUpperAlphaA
  | _ => false

/-- The two-item scenario of the end-to-end claim: item 1 carries raw
additives E330, item 2 carries E322I and a loosely formatted e 102. -/
def scenarioInput1 : UpsertInput :=
  { barcode := some "1", name := some "Item One", additives_raw := some ["E330"] }

/-- Second scenario item. -/
def scenarioInput2 : UpsertInput :=
  { barcode := some "2", name := some "Item Two", additives_raw := some ["E322I", "e 102"] }

/-- The store after upserting the two scenario items into an empty routine. -/
def scenarioStore : List RoutineItem :=
  upsertRoutineItem "1" "t1" scenarioInput2
    (upsertRoutineItem "0" "t0" scenarioInput1 [])

/-- The additive set the interaction-check screen extracts from the stored
scenario routine. -/
def scenarioENumbers : List String :=
  Check.extractENumbers ((getRoutineItems scenarioStore).map itemToCheckInput)

/-- A declarative description of the digit shape the specification names
(3 or 4 digits followed by upper-case letters), as an existential split.
Used to state claims about the normalizer independently of its
takeWhile-based implementation. -/
def Shape34 (l : List Char) : Prop :=
  ∃ ds ls, l = ds ++ ls ∧ (∀ c ∈ ds, isDigitA c = true) ∧
    (∀ c ∈ ls, isUpperAlphaA c = true) ∧ 3 ≤ ds.length ∧ ds.length ≤ 4

/-- Response for the first (superseded) request in the overlapping-run
scenario. -/
def respA : ApiResp := { inputs := ["E100", "E200"], score := some 80 }

/-- Response for the second (newer) request in the overlapping-run
scenario. -/
def respB : ApiResp := { inputs := ["E100", "E300"], score := some 60 }

/-- A stored item written by an older store revision: it has no enabled
flag. -/
def legacyItem : RoutineItem :=
  ⟨"L", "L", "Legacy", "—", none, none, none, [], [], [], "t",
    Frequency.Daily, ⟨"—", "Unknown", "Unknown", 0, 0, "Low"⟩⟩

/-- Two items used by the what-if witness. -/
def wItemA : RoutineItem := nextItem "0" "tA" { barcode := some "a" } none

/-- Second what-if witness item. -/
def wItemB : RoutineItem := nextItem "0" "tB" { barcode := some "bb" } none

/-! Character-level facts about the ASCII case mapping. -/

theorem toNat_ofNat_valid {n : Nat} (h : n < 55296) : (Char.ofNat n).toNat = n := by
  have hv : n.isValidChar := Or.inl h
  unfold Char.ofNat
  rw [dif_pos hv]
  rfl

theorem upChar_eq_of_not_lower {c : Char} (h : ¬(97 ≤ c.toNat ∧ c.toNat ≤ 122)) :
    upChar c = c := by
  unfold upChar
  rw [if_neg h]

theorem upChar_toNat_of_lower {c : Char} (h : 97 ≤ c.toNat ∧ c.toNat ≤ 122) :
    (upChar c).toNat = c.toNat - 32 := by
  unfold upChar
  rw [if_pos h]
  exact toNat_ofNat_valid (by omega)

theorem upChar_idem (c : Char) : upChar (upChar c) = upChar c := by
  by_cases h : 97 ≤ c.toNat ∧ c.toNat ≤ 122
  · have ht := upChar_toNat_of_lower h
    exact upChar_eq_of_not_lower (by omega)
  · rw [upChar_eq_of_not_lower h]
    exact upChar_eq_of_not_lower h

theorem upChar_of_digit {c : Char} (h : isDigitA c = true) : upChar c = c := by
  unfold isDigitA at h
  simp only [Bool.and_eq_true, decide_eq_true_eq] at h
  exact upChar_eq_of_not_lower (by omega)

theorem upChar_of_upperAlpha {c : Char} (h : isUpperAlphaA c = true) : upChar c = c := by
  unfold isUpperAlphaA at h
  simp only [Bool.and_eq_true, decide_eq_true_eq] at h
  exact upChar_eq_of_not_lower (by omega)

theorem isDigitA_of_upperAlpha {c : Char} (h : isUpperAlphaA c = true) :
    isDigitA c = false := by
  unfold isUpperAlphaA at h
  unfold isDigitA
  simp only [Bool.and_eq_true, decide_eq_true_eq] at h
  simp only [Bool.and_eq_false_iff, decide_eq_false_iff_not]
  omega

theorem chStr_data (l : List Char) : (chStr l).data = l := rfl

theorem chStr_inj {a b : List Char} (h : chStr a = chStr b) : a = b := by
  have := congrArg String.data h
  simpa [chStr_data] using this

theorem jsUpper_idem (s : String) : jsUpper (jsUpper s) = jsUpper s := by
  unfold jsUpper
  rw [chStr_data, List.map_map]
  congr 1
  exact List.map_congr_left (fun c _ => upChar_idem c)

/-! Facts about the insertion-ordered set model. -/

theorem mem_jsSetAdd {acc : List String} {s x : String} :
    x ∈ jsSetAdd acc s ↔ x ∈ acc ∨ x = s := by
  unfold jsSetAdd
  by_cases h : s ∈ acc
  · rw [if_pos h]
    constructor
    · exact fun hx => Or.inl hx
    · rintro (hx | rfl)
      · exact hx
      · exact h
  · rw [if_neg h]
    simp [List.mem_append]

theorem nodup_jsSetAdd {acc : List String} (h : acc.Nodup) (s : String) :
    (jsSetAdd acc s).Nodup := by
  unfold jsSetAdd
  by_cases hm : s ∈ acc
  · rwa [if_pos hm]
  · rw [if_neg hm]
    simp [List.nodup_append, h, hm]

theorem nodup_foldl_jsSetAdd (l : List String) :
    ∀ acc : List String, acc.Nodup → (l.foldl jsSetAdd acc).Nodup := by
  induction l with
  | nil => exact fun acc h => h
  | cons x xs ih =>
    intro acc h
    exact ih (jsSetAdd acc x) (nodup_jsSetAdd h x)

theorem mem_foldl_jsSetAdd (l : List String) :
    ∀ (acc : List String) (x : String),
      x ∈ l.foldl jsSetAdd acc ↔ x ∈ acc ∨ x ∈ l := by
  induction l with
  | nil => simp
  | cons y ys ih =>
    intro acc x
    simp only [List.foldl_cons, ih, mem_jsSetAdd, List.mem_cons]
    tauto

theorem nodup_jsSetOfList (l : List String) : (jsSetOfList l).Nodup :=
  nodup_foldl_jsSetAdd l [] List.nodup_nil

theorem nodup_uniq (l : List String) : (uniq l).Nodup :=
  nodup_jsSetOfList _

/-! Facts about the sort model. -/

theorem strLeChars_total (a b : List Char) :
    strLeChars a b = true ∨ strLeChars b a = true := by
  induction a generalizing b with
  | nil => left; rfl
  | cons x xs ih =>
    cases b with
    | nil => right; rfl
    | cons y ys =>
      by_cases hxy : x = y
      · subst hxy
        simpa [strLeChars] using ih ys
      · rcases lt_trichotomy x y with h | h | h
        · left
          simp [strLeChars, hxy, h]
        · exact absurd h hxy
        · right
          have : y ≠ x := fun hyx => hxy hyx.symm
          simp [strLeChars, this, h]

theorem strLeChars_trans {a b c : List Char} (hab : strLeChars a b = true)
    (hbc : strLeChars b c = true) : strLeChars a c = true := by
  induction a generalizing b c with
  | nil => rfl
  | cons x xs ih =>
    cases b with
    | nil => simp [strLeChars] at hab
    | cons y ys =>
      cases c with
      | nil => simp [strLeChars] at hbc
      | cons z zs =>
        by_cases hxy : x = y
        · subst hxy
          by_cases hyz : x = z
          · subst hyz
            simp only [strLeChars, if_pos rfl] at hab hbc ⊢
            exact ih hab hbc
          · simp only [strLeChars, if_pos rfl] at hab
            simp only [strLeChars, if_neg hyz, decide_eq_true_eq] at hbc ⊢
            exact hbc
        · by_cases hyz : y = z
          · subst hyz
            simp only [strLeChars, if_neg hxy] at hab ⊢
            exact hab
          · simp only [strLeChars, if_neg hxy, decide_eq_true_eq] at hab
            simp only [strLeChars, if_neg hyz, decide_eq_true_eq] at hbc
            have hxz : x < z := lt_trans hab hbc
            have hne : x ≠ z := ne_of_lt hxz
            simp [strLeChars, hne, hxz]

theorem strLe_isTotal : IsTotal String (fun a b => strLe a b = true) :=
  ⟨fun a b => strLeChars_total a.data b.data⟩

theorem strLe_isTrans : IsTrans String (fun a b => strLe a b = true) :=
  ⟨fun _ _ _ hab hbc => strLeChars_trans hab hbc⟩

theorem sortJS_sorted (l : List String) :
    List.Sorted (fun a b => strLe a b = true) (sortJS l) :=
  @List.sorted_insertionSort String (fun a b => strLe a b = true) _ strLe_isTotal strLe_isTrans l

theorem sortJS_perm (l : List String) : (sortJS l).Perm l :=
  List.perm_insertionSort _ l

theorem sortJS_nodup {l : List String} (h : l.Nodup) : (sortJS l).Nodup :=
  (sortJS_perm l).symm.nodup h

/-! Facts about findIndex, set and map. -/

theorem findMatchIdx_some {α : Type} {p : α → Bool} :
    ∀ {l : List α} {i : Nat}, findMatchIdx p l = some i →
      ∃ y, l[i]? = some y ∧ p y = true := by
  intro l
  induction l with
  | nil => intro i h; simp [findMatchIdx] at h
  | cons x xs ih =>
    intro i h
    unfold findMatchIdx at h
    by_cases hp : p x
    · rw [if_pos hp] at h
      cases h
      exact ⟨x, by simp, hp⟩
    · rw [if_neg hp] at h
      cases hfi : findMatchIdx p xs with
      | none => rw [hfi] at h; simp at h
      | some j =>
        rw [hfi] at h
        simp at h
        subst h
        obtain ⟨y, hy, hpy⟩ := ih hfi
        exact ⟨y, by rw [List.getElem?_cons_succ]; exact hy, hpy⟩

theorem findMatchIdx_none {α : Type} {p : α → Bool} :
    ∀ {l : List α}, findMatchIdx p l = none → ∀ y ∈ l, p y = false := by
  intro l
  induction l with
  | nil => intro _ y hy; simp at hy
  | cons x xs ih =>
    intro h y hy
    unfold findMatchIdx at h
    by_cases hp : p x
    · rw [if_pos hp] at h; cases h
    · rw [if_neg hp] at h
      rcases List.mem_cons.mp hy with rfl | hmem
      · cases hb : p y with
        | true => exact absurd hb hp
        | false => rfl
      · cases hfi : findMatchIdx p xs with
        | none => exact ih hfi y hmem
        | some j => rw [hfi] at h; simp at h

theorem map_set_eq {α β : Type} (f : α → β) :
    ∀ (l : List α) (i : Nat) (x : α),
      (∀ y, l[i]? = some y → f y = f x) → (l.set i x).map f = l.map f := by
  intro l
  induction l with
  | nil => intro i x _; simp
  | cons a as ih =>
    intro i x h
    cases i with
    | zero =>
      have := h a (by simp)
      simp [List.set, this]
    | succ j =>
      have hrec := ih j x (fun y hy => h y (by simpa using hy))
      simp [List.set, hrec]

/-! Facts about takeWhile and the E-digits prefix matcher. -/

theorem mem_takeWhile_pred {α : Type} {p : α → Bool} :
    ∀ {l : List α} {c : α}, c ∈ l.takeWhile p → p c = true := by
  intro l
  induction l with
  | nil => intro c hc; simp at hc
  | cons x xs ih =>
    intro c hc
    by_cases hx : p x
    · rw [List.takeWhile_cons_of_pos hx] at hc
      rcases List.mem_cons.mp hc with rfl | hm
      · exact hx
      · exact ih hm
    · rw [List.takeWhile_cons_of_neg hx] at hc
      simp at hc

theorem takeWhile_of_all {α : Type} {p : α → Bool} :
    ∀ {l : List α}, (∀ c ∈ l, p c = true) → l.takeWhile p = l := by
  intro l
  induction l with
  | nil => intro _; rfl
  | cons x xs ih =>
    intro h
    rw [List.takeWhile_cons_of_pos (h x (by simp))]
    rw [ih (fun c hc => h c (List.mem_cons_of_mem x hc))]

theorem dropWhile_of_all {α : Type} {p : α → Bool} :
    ∀ {l : List α}, (∀ c ∈ l, p c = true) → l.dropWhile p = [] := by
  intro l
  induction l with
  | nil => intro _; rfl
  | cons x xs ih =>
    intro h
    rw [List.dropWhile_cons_of_pos (h x (by simp))]
    exact ih (fun c hc => h c (List.mem_cons_of_mem x hc))

/-- Unfolding equation for the Insights baseENumber. -/
theorem insights_base_eq (c : String) :
    Insights.baseENumber c =
      match eDigitsHead (jsUpper c) with
      | some b => b
      | none => jsUpper c := rfl

theorem eDigitsHead_eq_some {s b : String} (h : eDigitsHead s = some b) :
    ∃ rest, s.data = 'E' :: rest ∧
      b = chStr ('E' :: ((rest.takeWhile isDigitA).take 4)) ∧
      3 ≤ ((rest.takeWhile isDigitA).take 4).length := by
  unfold eDigitsHead at h
  split at h
  · rename_i rest heq
    dsimp only at h
    split at h
    · rename_i h3
      cases h
      exact ⟨rest, heq, rfl, h3⟩
    · cases h
  · cases h

theorem eDigitsHead_eCat_digits {ds : List Char} (hds : ∀ c ∈ ds, isDigitA c = true)
    (h3 : 3 ≤ ds.length) (h4 : ds.length ≤ 4) :
    eDigitsHead (chStr ('E' :: ds)) = some (chStr ('E' :: ds)) := by
  have hred : eDigitsHead (chStr ('E' :: ds)) =
      (if 3 ≤ ((ds.takeWhile isDigitA).take 4).length then
        some (chStr ('E' :: ((ds.takeWhile isDigitA).take 4))) else none) := rfl
  rw [hred, takeWhile_of_all hds, List.take_of_length_le h4, if_pos h3]

theorem jsUpper_eDigits {ds : List Char} (hds : ∀ c ∈ ds, isDigitA c = true) :
    jsUpper (chStr ('E' :: ds)) = chStr ('E' :: ds) := by
  unfold jsUpper
  rw [chStr_data]
  congr 1
  rw [List.map_cons]
  have h1 : upChar 'E' = 'E' := by decide
  have h2 : ds.map upChar = ds := by
    have hmc : ds.map upChar = ds.map id :=
      List.map_congr_left (fun c hc => by rw [upChar_of_digit (hds c hc)]; rfl)
    simpa using hmc
  rw [h1, h2]

theorem insights_baseENumber_idem (c : String) :
    Insights.baseENumber (Insights.baseENumber c) = Insights.baseENumber c := by
  cases h : eDigitsHead (jsUpper c) with
  | none =>
    have h1 : Insights.baseENumber c = jsUpper c := by rw [insights_base_eq, h]
    rw [h1, insights_base_eq, jsUpper_idem, h]
  | some b =>
    have h1 : Insights.baseENumber c = b := by rw [insights_base_eq, h]
    obtain ⟨rest, _, hb, h3⟩ := eDigitsHead_eq_some h
    have hds : ∀ x ∈ (rest.takeWhile isDigitA).take 4, isDigitA x = true :=
      fun x hx => mem_takeWhile_pred (List.take_subset 4 _ hx)
    have h4 : ((rest.takeWhile isDigitA).take 4).length ≤ 4 := by
      simp [List.length_take]
    rw [h1, insights_base_eq, hb, jsUpper_eDigits hds,
      eDigitsHead_eCat_digits hds h3 h4]

theorem takeWhile_append_of {α : Type} {p : α → Bool} {l2 : List α}
    (h2 : ∀ c, l2.head? = some c → p c = false) :
    ∀ {l1 : List α}, (∀ c ∈ l1, p c = true) →
      (l1 ++ l2).takeWhile p = l1 ∧ (l1 ++ l2).dropWhile p = l2 := by
  intro l1
  induction l1 with
  | nil =>
    intro _
    simp only [List.nil_append]
    cases hl : l2 with
    | nil => simp
    | cons c t =>
      have hc : p c = false := h2 c (by rw [hl]; rfl)
      rw [List.takeWhile_cons_of_neg (by simp [hc]),
        List.dropWhile_cons_of_neg (by simp [hc])]
      exact ⟨rfl, rfl⟩
  | cons x xs ih =>
    intro h1
    have hx : p x = true := h1 x (by simp)
    obtain ⟨iht, ihd⟩ := ih (fun c hc => h1 c (List.mem_cons_of_mem x hc))
    constructor
    · simpa [List.takeWhile_cons_of_pos hx] using iht
    · simpa [List.dropWhile_cons_of_pos hx] using ihd

theorem isDigits34Letters_iff_shape (s : String) :
    isDigits34Letters s = true ↔ Shape34 s.data := by
  constructor
  · intro h
    unfold isDigits34Letters at h
    simp only [Bool.and_eq_true, decide_eq_true_eq, List.all_eq_true] at h
    obtain ⟨⟨h3, h4⟩, hrest⟩ := h
    exact ⟨s.data.takeWhile isDigitA, s.data.dropWhile isDigitA,
      (List.takeWhile_append_dropWhile isDigitA s.data).symm,
      fun c hc => mem_takeWhile_pred hc, hrest, h3, h4⟩
  · rintro ⟨ds, ls, hsplit, hds, hls, h3, h4⟩
    have hhead : ∀ c, ls.head? = some c → isDigitA c = false := by
      intro c hc
      have : c ∈ ls := by
        cases ls with
        | nil => simp at hc
        | cons a t => cases hc; simp
      exact isDigitA_of_upperAlpha (hls c this)
    obtain ⟨ht, hd⟩ := takeWhile_append_of hhead hds
    unfold isDigits34Letters
    rw [hsplit, ht, hd]
    simp only [Bool.and_eq_true, decide_eq_true_eq, List.all_eq_true]
    exact ⟨⟨h3, h4⟩, hls⟩

/-- Unfolding equation for the store normalizer. -/
theorem norm_eq (x : String) :
    normalizeENumberToken x =
      (if cleanToken x = "" then none
        else if headIsE (cleanToken x) then some (cleanToken x)
        else if isDigits34Letters (cleanToken x) then some (eCat (cleanToken x))
        else none) := rfl

theorem headIsE_empty_false : headIsE "" = false := rfl

theorem headIsE_false_of_digits {s : String} (h : isDigits34Letters s = true) :
    headIsE s = false := by
  unfold isDigits34Letters at h
  simp only [Bool.and_eq_true, decide_eq_true_eq, List.all_eq_true] at h
  obtain ⟨⟨h3, _⟩, _⟩ := h
  unfold headIsE
  cases hd : s.data with
  | nil => rfl
  | cons c t =>
    have hc : c ∈ s.data.takeWhile isDigitA := by
      have hcd : isDigitA c = true ∨ s.data.takeWhile isDigitA = [] := by
        rw [hd]
        by_cases hcc : isDigitA c
        · exact Or.inl hcc
        · right
          exact List.takeWhile_cons_of_neg (by simp [hcc])
      rcases hcd with hcc | hemp
      · rw [hd, List.takeWhile_cons_of_pos hcc]
        simp
      · rw [hemp] at h3
        simp at h3
    have hdig : isDigitA c = true := mem_takeWhile_pred hc
    have hne : c ≠ 'E' := by
      intro hE
      rw [hE] at hdig
      simp [isDigitA] at hdig
    simp [hne]

theorem norm_none_iff (x : String) :
    normalizeENumberToken x = none ↔
      (cleanToken x = "" ∨
        (headIsE (cleanToken x) = false ∧ isDigits34Letters (cleanToken x) = false)) := by
  rw [norm_eq]
  by_cases h0 : cleanToken x = ""
  · simp [h0]
  · rw [if_neg h0]
    by_cases h1 : headIsE (cleanToken x) = true
    · simp [h1, h0]
    · have h1f : headIsE (cleanToken x) = false := by
        cases hb : headIsE (cleanToken x)
        · rfl
        · exact absurd hb h1
      rw [if_neg (by simp [h1f])]
      by_cases h2 : isDigits34Letters (cleanToken x) = true
      · simp [h2, h0, h1f]
      · have h2f : isDigits34Letters (cleanToken x) = false := by
          cases hb : isDigits34Letters (cleanToken x)
          · rfl
          · exact absurd hb h2
        simp [h2f, h0, h1f]

theorem norm_of_headE {x : String} (h : headIsE (cleanToken x) = true) :
    normalizeENumberToken x = some (cleanToken x) := by
  have hne : cleanToken x ≠ "" := by
    intro he
    rw [he] at h
    simp [headIsE_empty_false] at h
  rw [norm_eq, if_neg hne, if_pos h]

theorem norm_of_digits {x : String} (h : isDigits34Letters (cleanToken x) = true) :
    normalizeENumberToken x = some (eCat (cleanToken x)) := by
  have hE : headIsE (cleanToken x) = false := headIsE_false_of_digits h
  have hne : cleanToken x ≠ "" := by
    intro he
    rw [he] at h
    simp [isDigits34Letters] at h
  rw [norm_eq, if_neg hne, if_neg (by simp [hE]), if_pos h]

theorem norm_some_headE {x s : String} (h : normalizeENumberToken x = some s) :
    headIsE s = true := by
  rw [norm_eq] at h
  by_cases h0 : cleanToken x = ""
  · rw [if_pos h0] at h; cases h
  · rw [if_neg h0] at h
    by_cases h1 : headIsE (cleanToken x)
    · rw [if_pos h1] at h
      cases h
      exact h1
    · rw [if_neg h1] at h
      by_cases h2 : isDigits34Letters (cleanToken x)
      · rw [if_pos h2] at h
        cases h
        rfl
      · rw [if_neg h2] at h; cases h

/-! Duplicate-freedom and sortedness of the extractors. -/

theorem nodup_foldl_addToken (ts : List String) :
    ∀ acc : List String, acc.Nodup → (ts.foldl Check.addToken acc).Nodup := by
  induction ts with
  | nil => exact fun _ h => h
  | cons t ts ih =>
    intro acc h
    apply ih
    unfold Check.addToken
    by_cases hn : Check.normE t = ""
    · simpa [hn] using h
    · rw [if_neg hn]
      exact nodup_foldl_jsSetAdd _ _ h

theorem nodup_extractENumbers (items : List ExtractItem) :
    (Check.extractENumbers items).Nodup := by
  unfold Check.extractENumbers
  have hgen : ∀ (its : List ExtractItem) (acc : List String), acc.Nodup →
      (its.foldl (fun out it => (Check.candidates it).foldl Check.addToken out) acc).Nodup := by
    intro its
    induction its with
    | nil => exact fun _ h => h
    | cons i is ih =>
      intro acc h
      exact ih _ (nodup_foldl_addToken _ _ h)
  exact hgen items [] List.nodup_nil

theorem nodup_extractRoutineENumbers (items : List InsightsItem) :
    (Insights.extractRoutineENumbers items).Nodup := by
  unfold Insights.extractRoutineENumbers
  exact sortJS_nodup (nodup_jsSetOfList _)

theorem sorted_extractRoutineENumbers (items : List InsightsItem) :
    List.Sorted (fun a b => strLe a b = true) (Insights.extractRoutineENumbers items) := by
  unfold Insights.extractRoutineENumbers
  exact sortJS_sorted _

/-! Facts about the upsert merge and the barcode-uniqueness invariant. -/

theorem nextItem_barcode_of_match {nowMs nowIso : String} {input : UpsertInput}
    {y : RoutineItem} (h : matchPred nowMs input y = true) :
    (nextItem nowMs nowIso input (some y)).barcode = y.barcode := by
  unfold matchPred at h
  by_cases hbc : inputBarcode input = ""
  · simp [nextItem, hbc]
  · rw [if_neg hbc] at h
    have hb : y.barcode = inputBarcode input := of_decide_eq_true h
    simp [nextItem, hbc, hb]

theorem upsert_preserves_BarcodesOK (nowMs nowIso : String) (input : UpsertInput)
    (routine : List RoutineItem) (h : BarcodesOK routine) :
    BarcodesOK (upsertRoutineItem nowMs nowIso input routine) := by
  unfold upsertRoutineItem
  cases hfi : findMatchIdx (matchPred nowMs input) routine with
  | some i =>
    obtain ⟨y, hy, hpy⟩ := findMatchIdx_some hfi
    unfold BarcodesOK at h ⊢
    rw [map_set_eq (fun x => x.barcode) routine i _ ?_]
    · exact h
    · intro z hz
      rw [hy] at hz
      cases hz
      rw [hy]
      exact (nextItem_barcode_of_match hpy).symm
  | none =>
    unfold BarcodesOK at h ⊢
    rw [List.map_cons]
    refine List.Pairwise.cons ?_ h
    intro b hb
    obtain ⟨z, hz, rfl⟩ := List.mem_map.mp hb
    by_cases hbc : inputBarcode input = ""
    · left
      simp [nextItem, hbc]
    · right
      have hz2 := findMatchIdx_none hfi z hz
      unfold matchPred at hz2
      rw [if_neg hbc] at hz2
      have hzb : ¬(z.barcode = inputBarcode input) := by simpa using hz2
      have hnb : (nextItem nowMs nowIso input none).barcode = inputBarcode input := by
        simp [nextItem, hbc]
      rw [hnb]
      exact fun he => hzb he.symm

theorem BarcodesOK_applyUpserts (ops : List UpsertOp) : BarcodesOK (applyUpserts ops) := by
  unfold applyUpserts
  have hgen : ∀ (os : List UpsertOp) (st : List RoutineItem), BarcodesOK st →
      BarcodesOK (os.foldl (fun st op => upsertRoutineItem op.nowMs op.nowIso op.input st) st) := by
    intro os
    induction os with
    | nil => exact fun _ h => h
    | cons o os ih =>
      intro st h
      exact ih _ (upsert_preserves_BarcodesOK _ _ _ _ h)
  exact hgen ops [] (by unfold BarcodesOK; simp)

theorem upsert_found {nowMs nowIso : String} {input : UpsertInput}
    {routine : List RoutineItem} {i : Nat}
    (h : findMatchIdx (matchPred nowMs input) routine = some i) :
    upsertRoutineItem nowMs nowIso input routine =
      routine.set i (nextItem nowMs nowIso input routine[i]?) := by
  unfold upsertRoutineItem
  rw [h]

theorem upsert_new {nowMs nowIso : String} {input : UpsertInput}
    {routine : List RoutineItem}
    (h : findMatchIdx (matchPred nowMs input) routine = none) :
    upsertRoutineItem nowMs nowIso input routine =
      nextItem nowMs nowIso input none :: routine := by
  unfold upsertRoutineItem
  rw [h]

example : cleanToken " e 102 " = "E102" := by decide
example : normalizeENumberToken "E-102" = some "E-102" := by decide
example : normalizeENumberToken "E 102" = some "E102" := by decide
example : normalizeENumberToken "EGG" = some "EGG" := by decide
example : normalizeENumberToken "330" = some "E330" := by decide
example : normalizeENumberToken "12" = none := by decide
example : RoutineStore.baseENumber "E322I" = some "E322" := by decide
example : RoutineStore.baseENumber "XYZ" = none := by decide
example : Insights.baseENumber "XYZ" = "XYZ" := by decide
example : Insights.baseENumber "E322I" = "E322" := by decide
example : Check.normE "E-102" = "E102" := by decide
example : Check.normE "e322i" = "E322I" := by decide
example : Check.normE "330" = "E330" := by decide
example : Check.normE "EGG" = "EGG" := by decide
example : Check.expandE "E322I" = ["E322I", "E322"] := by decide
example : Check.extractENumbers [{ additives := some ["e322i", "330", "E322"] }] =
    ["E322I", "E322", "E330"] := by decide
example : Insights.extractRoutineENumbers [{ additives_raw := some ["e322i", "330", "E322"] }] =
    ["E322", "E322I", "E330"] := by decide
example : scenarioENumbers = ["E322", "E102", "E330"] := by decide
example : (scenarioStore.map (fun x => x.e_numbers)) = [["E322", "E102"], ["E330"]] := by decide
example : Check.canRun scenarioENumbers = true := by decide

/-! Claim theorems. -/

/-- C1, counterexample: the extractor of InteractionCheckScreen renders the
accumulated set in insertion order, not sorted; on the raw tokens e322i, 330,
E322 it returns E322I, E322, E330, which differs from the sorted array the
claim requires. -/
theorem extractENumbers_not_sorted_cx :
    Check.extractENumbers [{ additives := some ["e322i", "330", "E322"] }] =
      ["E322I", "E322", "E330"] ∧
    (["E322I", "E322", "E330"] : List String) ≠ ["E322", "E322I", "E330"] := by
  exact ⟨by decide, by decide⟩

/-- C1, amended: both extractors are deterministic pure functions returning
duplicate-free arrays; the Insights extractor additionally sorts its output
lexicographically and on the example tokens returns E322, E322I, E330, while
the InteractionCheck extractor returns codes in first-insertion order,
yielding E322I, E322, E330 on the same tokens. -/
theorem extract_dedup_sorted_amended (items : List InsightsItem)
    (jtems : List ExtractItem) :
    (Insights.extractRoutineENumbers items).Nodup ∧
    List.Sorted (fun a b => strLe a b = true) (Insights.extractRoutineENumbers items) ∧
    (Check.extractENumbers jtems).Nodup ∧
    Insights.extractRoutineENumbers [{ additives_raw := some ["e322i", "330", "E322"] }] =
      ["E322", "E322I", "E330"] ∧
    Check.extractENumbers [{ additives := some ["e322i", "330", "E322"] }] =
      ["E322I", "E322", "E330"] :=
  ⟨nodup_extractRoutineENumbers items, sorted_extractRoutineENumbers items,
    nodup_extractENumbers jtems, by decide, by decide⟩

/-- C2, counterexample: after upserting the two scenario items, the store
keeps base-only e_numbers and the InteractionCheck extractor probes only that
field of a stored routine item, so extraction yields the three base codes
E322, E102, E330 rather than the four codes the claim requires (the full form
E322I is lost). -/
theorem endToEnd_four_codes_cx :
    scenarioENumbers = ["E322", "E102", "E330"] ∧
    (["E322", "E102", "E330"] : List String) ≠ ["E102", "E322", "E322I", "E330"] := by
  exact ⟨by decide, by decide⟩

/-- C2, amended: for the two-item scenario the stored raw lists keep the full
forms (E322I, E102 and E330), the stored derived e_numbers are base-only, and
extraction over the stored routine returns exactly the three base codes in
discovery order, on which canRun is true. -/
theorem endToEnd_three_base_codes_amended :
    scenarioStore.map (fun x => x.additives_raw) = [["E322I", "E102"], ["E330"]] ∧
    scenarioStore.map (fun x => x.e_numbers) = [["E322", "E102"], ["E330"]] ∧
    scenarioENumbers = ["E322", "E102", "E330"] ∧
    Check.canRun scenarioENumbers = true := by
  refine ⟨by decide, by decide, by decide, by decide⟩

/-- C3, counterexample: the store normalizer strips whitespace but not
hyphens and accepts any E-initial token unvalidated, so E-102 is returned
as-is: the result is neither the canonical code E102 the claim requires nor
null, and it does not match the canonical shape. -/
theorem normalize_E102_cx :
    normalizeENumberToken "E-102" = some "E-102" ∧
    (some "E-102" : Option String) ≠ some "E102" ∧
    isCanonicalECode "E-102" = false := by
  exact ⟨by decide, by decide, by decide⟩

/-- C3, amended: the store normalizer trims, uppercases and removes internal
whitespace, then accepts any E-initial token unchanged with no validation of
what follows (E 102 maps to E102 but E-102 stays E-102 and EGG stays EGG),
prepends E exactly to tokens of 3-or-4 digits plus trailing upper-case
letters, and returns null precisely otherwise; the separate normE helper of
the check screen tolerates one space or hyphen separator, mapping E-102 to
E102, but likewise passes other E-initial tokens through and does not require
3-or-4 digits. -/
theorem normalize_characterization_amended (x : String) :
    (isDigits34Letters (cleanToken x) = true ↔ Shape34 (cleanToken x).data) ∧
    (headIsE (cleanToken x) = true → normalizeENumberToken x = some (cleanToken x)) ∧
    (isDigits34Letters (cleanToken x) = true →
      normalizeENumberToken x = some (eCat (cleanToken x))) ∧
    (normalizeENumberToken x = none ↔
      (cleanToken x = "" ∨
        (headIsE (cleanToken x) = false ∧ isDigits34Letters (cleanToken x) = false))) ∧
    (∀ s, normalizeENumberToken x = some s → headIsE s = true) ∧
    normalizeENumberToken "E 102" = some "E102" ∧
    normalizeENumberToken "E-102" = some "E-102" ∧
    normalizeENumberToken "EGG" = some "EGG" ∧
    Check.normE "E-102" = "E102" ∧
    Check.normE "E 102" = "E102" ∧
    Check.normE "EGG" = "EGG" ∧
    Check.normE "E12" = "E12" :=
  ⟨isDigits34Letters_iff_shape _, fun h => norm_of_headE h, fun h => norm_of_digits h,
    norm_none_iff x, fun _ h => norm_some_headE h, by decide, by decide, by decide,
    by decide, by decide, by decide, by decide⟩

/-- C3 witness: the amended characterization applied at concrete tokens, one
through the digit branch, one through the E branch, one through the null
branch. -/
theorem normalize_characterization_amended_witness :
    normalizeENumberToken "3 3 0" = some "E330" ∧
    normalizeENumberToken "eGG" = some "EGG" ∧
    normalizeENumberToken "snack" = none :=
  ⟨((normalize_characterization_amended "3 3 0").2.2.1 (by decide)).trans (by decide),
    ((normalize_characterization_amended "eGG").2.1 (by decide)).trans (by decide),
    (normalize_characterization_amended "snack").2.2.2.1.mpr
      (Or.inr ⟨by decide, by decide⟩)⟩

/-- C4, counterexample: upserting with barcode b and no id, onto an item
stored with id custom and barcode b, replaces in place but recomputes the id
to the barcode instead of falling back to the stored id, so the absent id
field does not fall back to the existing value as the claim requires. -/
theorem upsert_id_fallback_cx :
    (upsertRoutineItem "1" "t1" { barcode := some "b", name := some "x" }
        (upsertRoutineItem "0" "t0" { id := some "custom", barcode := some "b" } [])).map
      (fun it => it.id) = ["b"] ∧
    (upsertRoutineItem "0" "t0" { id := some "custom", barcode := some "b" } []).map
      (fun it => it.id) = ["custom"] ∧
    ("b" : String) ≠ "custom" := by
  exact ⟨by decide, by decide, by decide⟩

/-- C4, amended: after every finite sequence of upsert calls starting from
the empty store no two items share a non-empty barcode; an upsert whose
identity matches an existing item replaces it in place (length unchanged,
other positions untouched) and an unmatched identity is inserted at the
front; fields absent on the incoming partial fall back to the existing item
(shown for name, brand, frequency, enabled, the raw lists, the timestamp,
image, ingredients and the badges), except the id, which is recomputed from
the input and barcode, and the derived e_numbers, which are recomputed
whenever the effective raw additive list is non-empty. -/
theorem upsert_barcode_unique_amended :
    (∀ ops : List UpsertOp, BarcodesOK (applyUpserts ops)) ∧
    (∀ nowMs nowIso input (routine : List RoutineItem) i,
      findMatchIdx (matchPred nowMs input) routine = some i →
        (upsertRoutineItem nowMs nowIso input routine).length = routine.length ∧
        (upsertRoutineItem nowMs nowIso input routine)[i]? =
          some (nextItem nowMs nowIso input routine[i]?) ∧
        (∀ j, j ≠ i → (upsertRoutineItem nowMs nowIso input routine)[j]? = routine[j]?)) ∧
    (∀ nowMs nowIso input (routine : List RoutineItem),
      findMatchIdx (matchPred nowMs input) routine = none →
        upsertRoutineItem nowMs nowIso input routine =
          nextItem nowMs nowIso input none :: routine) ∧
    (∀ nowMs nowIso input (p : RoutineItem),
      (input.name = none → (nextItem nowMs nowIso input (some p)).name = p.name) ∧
      (input.brand = none → (nextItem nowMs nowIso input (some p)).brand = p.brand) ∧
      (input.frequency = none →
        (nextItem nowMs nowIso input (some p)).frequency = p.frequency) ∧
      (input.enabled = none →
        (nextItem nowMs nowIso input (some p)).enabled = some (jsNotFalse p.enabled)) ∧
      (input.additives_raw = none →
        (nextItem nowMs nowIso input (some p)).additives_raw = p.additives_raw) ∧
      (input.allergens_raw = none →
        (nextItem nowMs nowIso input (some p)).allergens_raw = p.allergens_raw) ∧
      (nextItem nowMs nowIso input (some p)).addedAtISO = p.addedAtISO ∧
      (input.image_url = none →
        (nextItem nowMs nowIso input (some p)).image_url = p.image_url) ∧
      (input.ingredients_text = none →
        (nextItem nowMs nowIso input (some p)).ingredients_text = p.ingredients_text) ∧
      (input.e_numbers = none → input.additives_raw = none → p.additives_raw = [] →
        (nextItem nowMs nowIso input (some p)).e_numbers = p.e_numbers) ∧
      (input.e_numbers = none → input.additives_raw = none → p.additives_raw ≠ [] →
        (nextItem nowMs nowIso input (some p)).e_numbers =
          deriveENumbersFromRaw p.additives_raw) ∧
      (input.badges = {} → (nextItem nowMs nowIso input (some p)).badges = p.badges)) := by
  refine ⟨BarcodesOK_applyUpserts, ?_, ?_, ?_⟩
  · intro nowMs nowIso input routine i h
    obtain ⟨y, hy, _⟩ := findMatchIdx_some h
    have hi : i < routine.length := by
      by_contra hge
      rw [List.getElem?_eq_none (Nat.le_of_not_lt hge)] at hy
      cases hy
    refine ⟨?_, ?_, ?_⟩
    · rw [upsert_found h, List.length_set]
    · rw [upsert_found h]
      exact List.getElem?_set_self hi
    · intro j hj
      rw [upsert_found h]
      exact List.getElem?_set_ne (fun he => hj he.symm)
  · intro nowMs nowIso input routine h
    exact upsert_new h
  · intro nowMs nowIso input p
    refine ⟨?_, ?_, ?_, ?_, ?_, ?_, ?_, ?_, ?_, ?_, ?_, ?_⟩
    · intro h; simp [nextItem, safeStr, h]
    · intro h; simp [nextItem, safeStr, h]
    · intro h; simp [nextItem, h]
    · intro h; simp [nextItem, h]
    · intro h; simp [nextItem, h]
    · intro h; simp [nextItem, h]
    · simp [nextItem]
    · intro h; simp [nextItem, h]
    · intro h; simp [nextItem, h]
    · intro h1 h2 h3; simp [nextItem, h1, h2, h3]
    · intro h1 h2 h3; simp [nextItem, h1, h2, h3]
    · intro h; simp [nextItem, h]

/-- C4 witness: the amended theorem applied to the concrete scenario store,
where an upsert matching barcode 1 at index 1 replaces in place, keeps the
length and leaves index 0 untouched, and a fresh barcode is inserted at the
front. -/
theorem upsert_barcode_unique_amended_witness :
    (upsertRoutineItem "2" "t2" { barcode := some "1", brand := some "B2" }
        scenarioStore).length = scenarioStore.length ∧
    (upsertRoutineItem "2" "t2" { barcode := some "1", brand := some "B2" }
        scenarioStore)[0]? = scenarioStore[0]? ∧
    upsertRoutineItem "2" "t2" { barcode := some "9" } scenarioStore =
      nextItem "2" "t2" { barcode := some "9" } none :: scenarioStore :=
  ⟨(upsert_barcode_unique_amended.2.1 "2" "t2"
      { barcode := some "1", brand := some "B2" } scenarioStore 1 (by decide)).1,
    (upsert_barcode_unique_amended.2.1 "2" "t2"
      { barcode := some "1", brand := some "B2" } scenarioStore 1 (by decide)).2.2 0
      (by decide),
    upsert_barcode_unique_amended.2.2.1 "2" "t2" { barcode := some "9" } scenarioStore
      (by decide)⟩

/-- C5, counterexample: an upsert that supplies badges.additivesCount stores
the supplied count as-is, so a fresh item can hold additivesCount 5 with an
empty stored e_numbers list, contradicting the claim that the count always
equals the list length. -/
theorem badges_count_settable_cx :
    (upsertRoutineItem "0" "t0"
        { barcode := some "b", e_numbers := some [],
          badges := { additivesCount := some 5 } } []).map
      (fun it => (it.badges.additivesCount, it.e_numbers.length)) = [(5, 0)] ∧
    (5 : Nat) ≠ 0 := by
  exact ⟨by decide, by decide⟩

/-- C5, amended: badge counts are derived from the stored lists only as a
last fallback; for a freshly inserted item whose payload carries no explicit
counts, additivesCount equals the length of the stored e_numbers list and
allergensCount equals the length of the stored allergen list, but a payload
that supplies a count stores it unchecked. -/
theorem badges_count_derived_amended (nowMs nowIso : String) (input : UpsertInput)
    (h1 : input.badges.additivesCount = none) (h2 : input.badges.allergensCount = none) :
    (nextItem nowMs nowIso input none).badges.additivesCount =
      (nextItem nowMs nowIso input none).e_numbers.length ∧
    (nextItem nowMs nowIso input none).badges.allergensCount =
      (nextItem nowMs nowIso input none).allergens_raw.length := by
  constructor
  · simp [nextItem, h1]
  · simp [nextItem, h2]

/-- C5 witness: the amended consistency applied to a concrete payload with
raw additives and no explicit counts. -/
theorem badges_count_derived_amended_witness :
    (nextItem "0" "t0" { barcode := some "w5", additives_raw := some ["E330", "E951"] }
        none).badges.additivesCount =
      (nextItem "0" "t0" { barcode := some "w5", additives_raw := some ["E330", "E951"] }
        none).e_numbers.length :=
  (badges_count_derived_amended "0" "t0"
    { barcode := some "w5", additives_raw := some ["E330", "E951"] }
    (by decide) (by decide)).1

/-- C6: canRun is false exactly on additive sets of size 0 or 1 and true from
size 2 on; when canRun is false the synchronous prefix of runCheck issues no
request to the scoring collaborator, clears the held report and the error,
and the summary line presents the needs-more-data message. -/
theorem canRun_threshold_gating (l : List String) (st : CheckState) :
    (Check.canRun l = false ↔ (l.length = 0 ∨ l.length = 1)) ∧
    (Check.canRun l = true ↔ 2 ≤ l.length) ∧
    (Check.canRun l = false →
      Check.issueRunCheck l st = ({ st with resp := none, err := "" }, none)) ∧
    (Check.canRun l = false →
      Check.summaryLine false "" (Check.canRun l) none =
        "Add at least 2 additives in your routine (from one or more products) to run the check.") := by
  refine ⟨?_, ?_, ?_, ?_⟩
  · constructor
    · intro h
      have : ¬(2 ≤ l.length) := by
        intro hge
        rw [show Check.canRun l = true from by simp [Check.canRun, hge]] at h
        cases h
      omega
    · intro h
      simp [Check.canRun]
      omega
  · simp [Check.canRun]
  · intro h
    unfold Check.issueRunCheck
    rw [if_pos h]
  · intro h
    rw [h]
    rfl

/-- C6 witness: the gating applied to a one-element additive set. -/
theorem canRun_threshold_gating_witness :
    Check.issueRunCheck ["E100"] {} = ({ resp := none, err := "", loading := false }, none) ∧
    Check.summaryLine false "" (Check.canRun ["E100"]) none =
      "Add at least 2 additives in your routine (from one or more products) to run the check." :=
  ⟨(canRun_threshold_gating ["E100"] {}).2.2.1 (by decide),
    (canRun_threshold_gating ["E100"] {}).2.2.2 (by decide)⟩

/-- C7, counterexample: the response continuation of runCheck stores whatever
response arrives, with no request tag or staleness comparison; in the
interleaving issue A, issue B, B resolves, A resolves, the final held report
is the superseded request A response, which the claim forbids.  Both requests
are legitimately issued (canRun holds for both sets). -/
theorem stale_response_overwrites_cx :
    (Check.completeOk (Check.completeOk
        (Check.issueRunCheck ["E100", "E300"]
          (Check.issueRunCheck ["E100", "E200"] {}).1).1 respB) respA).resp = some respA ∧
    respA ≠ respB ∧
    (Check.issueRunCheck ["E100", "E200"] ({} : CheckState)).2 = some ["E100", "E200"] ∧
    (Check.issueRunCheck ["E100", "E300"]
      (Check.issueRunCheck ["E100", "E200"] {}).1).2 = some ["E100", "E300"] := by
  exact ⟨by decide, by decide, by decide, by decide⟩

/-- C7, amended: responses are applied in arrival order with no staleness
guard, so the held report after any burst of completions is that of the last
arrival, whichever request it belongs to; the debounced effect only delays
issuing requests and cannot discard an in-flight response. -/
theorem last_arrival_wins_amended (st : CheckState) (rs : List ApiResp) (r : ApiResp) :
    (Check.applyCompletions st (rs ++ [r])).resp = some r ∧
    (Check.applyCompletions st (rs ++ [r])).loading = false := by
  unfold Check.applyCompletions
  rw [List.foldl_append]
  simp [Check.completeOk]

/-- C8: the what-if restriction is a pure filter: it keeps exactly the items
whose identity key is unmarked in the exclusion record, returns a sublist of
the input (the input itself is a value and is never mutated in this pure
embedding, matching the non-mutating Array.prototype.filter of the source),
and is extensional in the exclusion record, so equal arguments give equal
results. -/
theorem includedItems_pure (items : List RoutineItem) (excluded : String → Bool) :
    (∀ it, it ∈ includedItems items excluded ↔ (it ∈ items ∧ excluded it.id = false)) ∧
    (includedItems items excluded).Sublist items ∧
    (∀ ex2 : String → Bool, (∀ s, ex2 s = excluded s) →
      includedItems items ex2 = includedItems items excluded) := by
  refine ⟨?_, ?_, ?_⟩
  · intro it
    unfold includedItems
    rw [List.mem_filter]
    simp
  · exact List.filter_sublist _
  · intro ex2 h
    unfold includedItems
    exact List.filter_congr (fun x _ => by rw [h x.id])

/-- C8 witness: the characterization applied to a concrete two-item
collection with one excluded id. -/
theorem includedItems_pure_witness :
    wItemB ∈ includedItems [wItemA, wItemB] (fun s => s == "a") ∧
    includedItems [wItemA, wItemB] (fun s => s == "a") =
      includedItems [wItemA, wItemB] (fun s => s == "a") :=
  ⟨((includedItems_pure [wItemA, wItemB] (fun s => s == "a")).1 wItemB).mpr
      ⟨by decide, by decide⟩,
    (includedItems_pure [wItemA, wItemB] (fun s => s == "a")).2.2
      (fun s => s == "a") (fun _ => rfl)⟩

/-- C9, counterexample: the routineStore implementation of baseENumber
returns null for an input that does not match the E-number shape (XYZ),
although the claim says baseOf never returns null and returns the uppercased
input unchanged. -/
theorem baseENumber_store_null_cx :
    RoutineStore.baseENumber "XYZ" = none ∧ jsUpper "XYZ" = "XYZ" := by
  exact ⟨by decide, by decide⟩

/-- C9, amended: the InsightsScreen implementation of baseENumber is total
and idempotent, strips trailing letters after the digit run (E322I to E322),
and returns the uppercased input unchanged when the shape does not match; the
routineStore implementation agrees with it on matching inputs but returns
null on non-matching inputs, which its callers skip. -/
theorem baseOf_idempotent_amended (c : String) :
    Insights.baseENumber (Insights.baseENumber c) = Insights.baseENumber c ∧
    (RoutineStore.baseENumber c = none → Insights.baseENumber c = jsUpper c) ∧
    (∀ b, RoutineStore.baseENumber c = some b → Insights.baseENumber c = b) ∧
    Insights.baseENumber "E322I" = "E322" ∧
    RoutineStore.baseENumber "E322I" = some "E322" := by
  refine ⟨insights_baseENumber_idem c, ?_, ?_, by decide, by decide⟩
  · intro h
    unfold RoutineStore.baseENumber at h
    rw [insights_base_eq, h]
  · intro b h
    unfold RoutineStore.baseENumber at h
    rw [insights_base_eq, h]

/-- C9 witness: the fallback branch at a non-matching token and the agreement
branch at a matching one. -/
theorem baseOf_idempotent_amended_witness :
    Insights.baseENumber "snack" = "SNACK" ∧
    Insights.baseENumber "e1234xy" = "E1234" :=
  ⟨((baseOf_idempotent_amended "snack").2.1 (by decide)).trans (by decide),
    (baseOf_idempotent_amended "e1234xy").2.2.1 "E1234" (by decide)⟩

/-- C10: getRoutineItems returns a fresh array (a map over the backing list)
of per-item shallow copies in which only the enabled field is recomputed, and
the reported enabled flag is true unless the stored field is literally false,
so a stored item with a missing flag is reported as enabled. -/
theorem getRoutineItems_enabled_default (routine : List RoutineItem) :
    (getRoutineItems routine).length = routine.length ∧
    (∀ (i : Nat) (x : RoutineItem), routine[i]? = some x →
      (getRoutineItems routine)[i]? =
        some { x with enabled := some (jsNotFalse x.enabled) }) ∧
    (∀ x : RoutineItem, x.enabled ≠ some false → jsNotFalse x.enabled = true) ∧
    (∀ x : RoutineItem, x.enabled = some false → jsNotFalse x.enabled = false) := by
  refine ⟨?_, ?_, ?_, ?_⟩
  · simp [getRoutineItems]
  · intro i x h
    unfold getRoutineItems
    rw [List.getElem?_map, h]
    rfl
  · intro x h
    cases he : x.enabled with
    | none => rfl
    | some b =>
      cases b with
      | false => exact absurd he h
      | true => rfl
  · intro x h
    rw [h]
    rfl

/-- C10 witness: a legacy item stored without an enabled flag is reported
with enabled true, through a fresh copy. -/
theorem getRoutineItems_enabled_default_witness :
    (getRoutineItems [legacyItem])[0]? = some { legacyItem with enabled := some true } :=
  (getRoutineItems_enabled_default [legacyItem]).2.1 0 legacyItem (by decide)
